import Mathlib

/-!
Shallow embedding of `src/git-repos.py`: a script that collects a GitHub
user's repositories and gists, computes per-language statistics, and
rewrites the Projects section of a README file.

Modelling conventions:
* The GitHub API boundary is data: a repository arrives as a `RepoData`
  record carrying exactly the fields the script reads from the API
  (`owner == user` and `user in get_contributors()` arrive as booleans,
  the per-language byte mapping as an insertion-ordered association list
  with the semantics of a Python dict, the file tree as a list of root
  entries).
* Timestamps are integers counting seconds; `datetime.timedelta(days=182)`
  is the integer `182 * 86400`.
* A Python `collections.Counter` is a total function `String → Nat`
  (a missing key reads as 0).
* Notebook files carry their content already parsed: the base64/JSON
  decoding layer of `count_jupyter_bytes` (line 40) is not modelled, only
  the cell structure it produces.
* Python string tests `startswith` / `endswith` are character-sequence
  prefix/suffix tests, modelled on `String.data` so that they evaluate
  in the kernel.
* Reading the README with `readline` past end of file yields `""` forever,
  so the scan loops at lines 203-209 never exit once the input is
  exhausted; `spliceDoc` returns `none` exactly in the cases where the
  script would loop forever (and hence write no output).  The fuel-indexed
  scanners `scanMarkerFuel` / `scanHeadingFuel` witness the unboundedness
  step by step.
-/

namespace GitRepos

/-- One notebook cell as the JSON parse at line 40-41 of the source exposes
it: a `cell_type` tag and the list of source lines. -/
structure Cell where
  cell_type : String
  source : List String

/-- One entry of a repository tree, as `gh_repo.get_contents` returns it:
a file (with its parsed notebook cells, read only when the name ends in
`.ipynb`) or a directory with its children. -/
inductive Entry where
  | file (name : String) (cells : List Cell)
  | dir (name : String) (children : List Entry)

mutual

/-- Number of nodes of one entry (directories count themselves plus their
children): the termination measure of the worklist loop. -/
def entrySize : Entry → Nat
  | .file _ _ => 1
  | .dir _ cs => 1 + listSize cs

/-- Number of nodes of a list of entries. -/
def listSize : List Entry → Nat
  | [] => 0
  | e :: es => entrySize e + listSize es

end

/-- Python `name.endswith(".ipynb")` as a character-suffix test (line 38). -/
def endsIpynb (name : String) : Bool := ".ipynb".data.isSuffixOf name.data

/-- Lines 41-44 of the source: for every cell of the notebook whose
`cell_type` is `"code"`, add the UTF-8 byte length of every source line to
the running count. -/
def notebookCellsFold (bytes_count : Nat) (cells : List Cell) : Nat :=
  cells.foldl
    (fun acc cell =>
      if cell.cell_type = "code" then
        cell.source.foldl (fun a line => a + line.utf8ByteSize) acc
      else acc)
    bytes_count

/-- The worklist loop of `count_jupyter_bytes` (lines 32-44): pop the front
entry while MORE THAN ONE entry remains (`while len(contents) > 1`), extend
the worklist with a directory's children (`contents.extend`, at the back),
and count the code-cell bytes of a file whose name ends in `.ipynb`.  The
`> 1` guard means the final remaining entry is never examined. -/
def count_loop (bytes_count : Nat) : List Entry → Nat
  | [] => bytes_count
  | [_] => bytes_count
  | e :: rest =>
    match e with
    | .dir _ cs => count_loop bytes_count (rest ++ cs)
    | .file name cells =>
        count_loop (if endsIpynb name then notebookCellsFold bytes_count cells else bytes_count) rest
termination_by l => listSize l
decreasing_by
  · have happ : ∀ (a b : List Entry), listSize (a ++ b) = listSize a + listSize b := by
      intro a b
      induction a with
      | nil => simp [listSize]
      | cons e es ih => simp [listSize, ih]; omega
    simp [happ, listSize, entrySize]
    omega
  · simp [listSize, entrySize]

/-- `count_jupyter_bytes(gh_repo)` (lines 27-45): run the worklist loop from
the repository's root listing with a zero byte count. -/
def count_jupyter_bytes (contents : List Entry) : Nat := count_loop 0 contents

/-- Code-cell byte count of one notebook, per the spec (§4.5): the UTF-8
byte length of every source line belonging to code cells. -/
def specNotebookBytes (cells : List Cell) : Nat := notebookCellsFold 0 cells

mutual

/-- The byte count §4.5 of the spec describes for one entry: every notebook
file anywhere in the tree contributes, directories are recursed into. -/
def specEntryBytes : Entry → Nat
  | .file name cells => if endsIpynb name then specNotebookBytes cells else 0
  | .dir _ cs => specListBytes cs

/-- The byte count §4.5 of the spec describes for a listing. -/
def specListBytes : List Entry → Nat
  | [] => 0
  | e :: es => specEntryBytes e + specListBytes es

end

/-- The spec-side counterpart of `count_jupyter_bytes`: sum over ALL
notebook files of the tree ("recursing into directories of the repository
tree to locate all notebook files"). -/
def count_jupyter_bytes_spec (contents : List Entry) : Nat := specListBytes contents

/-- The data the script reads from the API about one repository.
`languages` is the insertion-ordered association list behind the Python
dict `gh_repo.get_languages()`; `is_owner` stands for `gh_repo.owner == user`
(line 66) and `is_contributor` for `user in gh_repo.get_contributors()`
(line 67); `contents` is the root listing `gh_repo.get_contents("")`. -/
structure RepoData where
  owner_login : String
  owner_html_url : String
  name : String
  html_url : String
  description : String
  languages : List (String × Nat)
  archived : Bool
  updated_at : Int
  is_private : Bool
  is_owner : Bool
  is_contributor : Bool
  contents : List Entry

/-- The data the script reads about one gist (lines 88-90, 139-145). -/
structure GistData where
  owner_login : String
  owner_html_url : String
  description : String
  html_url : String
  is_public : Bool
  updated_at : Int

/-- `Counter[key] += value` (`LangStat.add`, lines 162-163): a Counter is a
total function with default 0. -/
def addCount (c : String → Nat) (key : String) (value : Nat) : String → Nat :=
  fun k => if k = key then c k + value else c k

/-- The fold behind Python `max(iterable, key=...)` over the pairs of the
language dict, with `languages[k]` as the key function: keep the current
best unless a later pair's value is STRICTLY greater, so the first pair
attaining the maximum wins (line 75). -/
def pyMaxPair (p : String × Nat) (ps : List (String × Nat)) : String × Nat :=
  ps.foldl (fun best q => if best.2 < q.2 then q else best) p

/-- `max(languages, key=lambda k: languages[k])` (line 75); Python `max`
raises on an empty dict, modelled as `none`. -/
def pyMax : List (String × Nat) → Option (String × Nat)
  | [] => none
  | p :: ps => some (pyMaxPair p ps)

/-- `datetime.timedelta(days=182)` (line 114), in seconds. -/
def six_months : Int := 182 * 86400

/-- The status classification of `Repo.__init__` (lines 124-129): archived
wins, then the 182-day staleness test on `now - updated_at`, else Current. -/
def repoStatus (archived : Bool) (updated_at now : Int) : String :=
  if archived then "Archive"
  else if now - updated_at > six_months then "Stale"
  else "Current"

/-- The record `Repo.__init__` stores (lines 116-132).  `last_modified`
keeps the raw timestamp (the script formats it as "%Y-%m-%d"; the format
itself plays no part in any claim). -/
structure Repo where
  owner : String
  name : String
  description : String
  languages : String
  status : String
  last_modified : Int

/-- Build a `Repo` from the API data (lines 116-132): markdown links for
owner and name, a comma-joined language list, the status rule. -/
def Repo.ofData (now : Int) (r : RepoData) : Repo :=
  { owner := "[" ++ r.owner_login ++ "](" ++ r.owner_html_url ++ ")"
    name := "[" ++ r.name ++ "](" ++ r.html_url ++ ")"
    description := r.description
    languages := String.intercalate ", " (r.languages.map Prod.fst)
    status := repoStatus r.archived r.updated_at now
    last_modified := r.updated_at }

/-- `Repo.markdown` (line 136): one table row. -/
def Repo.markdown (r : Repo) : String :=
  "| " ++ r.name ++ " | " ++ r.description ++ " | " ++ r.owner ++ " | " ++ r.languages ++ " |\n"

/-- The record `Gist.__init__` stores (lines 139-145). -/
structure Gist where
  owner : String
  description : String
  last_modified : Int

/-- Build a `Gist` from the API data (lines 143-145). -/
def Gist.ofData (g : GistData) : Gist :=
  { owner := "[" ++ g.owner_login ++ "](" ++ g.owner_html_url ++ ")"
    description := "[" ++ g.description ++ "](" ++ g.html_url ++ ")"
    last_modified := g.updated_at }

/-- `Gist.markdown` (line 149): one table row. -/
def Gist.markdown (g : Gist) : String :=
  "| " ++ g.description ++ " |\n"

/-- The mutable state of the aggregation pass of `Repos.__init__`: the four
`LangStat` counters built at lines 57-60 and the per-status record lists of
`self.repos` (line 61, keys Current / Stale / Archive in that order). -/
structure AggState where
  all_bytes : String → Nat
  all_repos : String → Nat
  top_bytes : String → Nat
  top_repos : String → Nat
  current : List Repo
  stale : List Repo
  archive : List Repo

/-- Fresh counters and empty record lists, as at the start of the pass. -/
def initState : AggState :=
  { all_bytes := fun _ => 0
    all_repos := fun _ => 0
    top_bytes := fun _ => 0
    top_repos := fun _ => 0
    current := []
    stale := []
    archive := [] }

/-- Lines 69-77: `if languages:` (the stats are fed only when the language
dict is non-empty).  `all_bytes` adds the RAW `linguist_bytes_count` of each
language (line 73) — the `bytes_count` computed at line 72 for Jupyter
notebooks is bound and never used, which this embedding keeps as a dead
`let`.  `all_repos` counts each key once (`Counter.update(languages.keys())`,
line 74).  `top_repos`/`top_bytes` credit the dominant language (lines
75-77; `languages[top_language]` is the dict lookup of the winning key). -/
def updateStats (st : AggState) (r : RepoData) : AggState :=
  match r.languages with
  | [] => st
  | p :: ps =>
    let top_language := pyMaxPair p ps
    { st with
      all_bytes := (p :: ps).foldl
        (fun c q =>
          let bytes_count :=
            if q.1 = "Jupyter Notebook" then count_jupyter_bytes r.contents else q.2
          addCount c q.1 q.2)
        st.all_bytes
      all_repos := (p :: ps).foldl (fun c q => addCount c q.1 1) st.all_repos
      top_repos := addCount st.top_repos top_language.1 1
      top_bytes := addCount st.top_bytes top_language.1
        (((p :: ps).lookup top_language.1).getD 0) }

/-- Lines 79-81: the visibility filter and the record append.  The repo is
appended to the list keyed by its status (the `assert` at line 130
guarantees the three-way split below is the dict indexing of line 81). -/
def addRecord (include_private : Bool) (now : Int) (st : AggState) (r : RepoData) : AggState :=
  if include_private || !r.is_private then
    let repo := Repo.ofData now r
    if repo.status = "Current" then { st with current := st.current ++ [repo] }
    else if repo.status = "Stale" then { st with stale := st.stale ++ [repo] }
    else { st with archive := st.archive ++ [repo] }
  else st

/-- Lines 64-81, the body of the per-repository loop: the ownership /
contribution filter gates BOTH the statistics and the record; the
visibility filter gates only the record. -/
def processRepo (include_private : Bool) (now : Int) (st : AggState) (r : RepoData) : AggState :=
  if r.is_owner || r.is_contributor then
    addRecord include_private now (updateStats st r) r
  else st

/-- The whole statistics/record pass over a list of repositories. -/
def processAll (include_private : Bool) (now : Int) (st : AggState)
    (repos : List RepoData) : AggState :=
  repos.foldl (processRepo include_private now) st

/-- The pass as `Repos.__init__` runs it: over `repos[:5]` (line 64, the
fixed enumeration cap) from fresh state. -/
def reposPass (include_private : Bool) (now : Int) (repos : List RepoData) : AggState :=
  processAll include_private now initState (repos.take 5)

/-- A repository is covered by the statistics when the ownership filter
passes and its language mapping is non-empty (lines 66-70). -/
def includedInStats (r : RepoData) : Bool :=
  (r.is_owner || r.is_contributor) && !r.languages.isEmpty

/-- The section marker (line 25 of the source). -/
def PROJECTS_HEADER : String := "## Projects\n"

/-- The subsection header emitted for one status (line 102). -/
def statusHeader (status : String) : String :=
  "\n### " ++ status ++ "\n| Repository | Description | Owner | Language(s) |\n|---|---|---|---|\n"

/-- The gists subsection header (line 106). -/
def gistsHeader : String := "\n### Gists\n| Description |\n|---|\n"

/-- `Repos.markdown_table` (lines 94-110): the marker line, one subsection
per status in the fixed order Current, Stale, Archive (the insertion order
of the dict built at line 61), then the Gists subsection. -/
def markdown_table (st : AggState) (gists : List Gist) : List String :=
  [PROJECTS_HEADER]
    ++ (statusHeader "Current" :: st.current.map Repo.markdown)
    ++ (statusHeader "Stale" :: st.stale.map Repo.markdown)
    ++ (statusHeader "Archive" :: st.archive.map Repo.markdown)
    ++ (gistsHeader :: gists.map Gist.markdown)

/-- Does the line start with a newline character?  Discriminates the
subsection headers (which all start `"\n### "`) from the marker line and
from every table row (which all start `"| "`). -/
def startsWithNewline (l : String) : Bool := l.data.head? == some '\n'

/-- Python `line.startswith("## ")` (line 208) as a character-prefix test. -/
def isHeadingLine (l : String) : Bool := "## ".data.isPrefixOf l.data

/-- The marker scan of `main` (lines 202-205) on the lines that FOLLOW the
first line (line 201 put the first line into `head` unchecked): split the
remaining lines at the first occurrence of `PROJECTS_HEADER`, or `none`
when there is none — in which case `readline` returns `""` forever and the
`while line != PROJECTS_HEADER` loop never exits. -/
def splitAtMarker : List String → Option (List String × List String)
  | [] => none
  | l :: ls =>
    if l = PROJECTS_HEADER then some ([], ls)
    else
      match splitAtMarker ls with
      | none => none
      | some (pre, post) => some (l :: pre, post)

/-- The heading scan of `main` (lines 207-209): drop lines until one starts
with `"## "`, or `none` when no line does — the unbounded scan the TODO at
line 208 records. -/
def splitAtHeading : List String → Option (String × List String)
  | [] => none
  | l :: ls => if isHeadingLine l then some (l, ls) else splitAtHeading ls

/-- The README rewrite of `main` (lines 200-217) on a document given as its
list of lines: `head` is the first line plus every line before the marker,
the lines from the marker to the next heading are dropped, `tail` is a
newline prepended to the heading line (line 210: `tail = ['\n'+line]`)
followed by the rest, and the output is `head ++ table ++ tail`.  `none`
models the runs in which one of the two scans never finds its line and the
script loops forever, writing nothing. -/
def spliceDoc (doc table : List String) : Option (List String) :=
  match doc with
  | [] => none
  | first :: rest =>
    match splitAtMarker rest with
    | none => none
    | some (pre, afterMarker) =>
      match splitAtHeading afterMarker with
      | none => none
      | some (heading, post) =>
          some ((first :: pre) ++ table ++ ("\n" ++ heading) :: post)

/-- The marker scan with an explicit step budget, faithful to `readline`
semantics: past the end of the file every read yields `""`, which is
compared against the marker and fails, so the loop keeps running. -/
def scanMarkerFuel : Nat → List String → Option (List String)
  | 0, _ => none
  | fuel + 1, [] =>
    if ("" : String) = PROJECTS_HEADER then some [] else scanMarkerFuel fuel []
  | fuel + 1, l :: ls =>
    if l = PROJECTS_HEADER then some ls else scanMarkerFuel fuel ls

/-- The heading scan with an explicit step budget: past the end of the file
every read yields `""`, which does not start with `"## "`. -/
def scanHeadingFuel : Nat → List String → Option (String × List String)
  | 0, _ => none
  | fuel + 1, [] =>
    if isHeadingLine "" then some ("", []) else scanHeadingFuel fuel []
  | fuel + 1, l :: ls =>
    if isHeadingLine l then some (l, ls) else scanHeadingFuel fuel ls

/-- A concrete public repository datum, used to instantiate witnesses. -/
def sampleRepoData : RepoData :=
  ⟨"me", "https://e/me", "demo", "https://e/demo", "a demo repo",
   [("Python", 900), ("YAML", 100)], false, 0, false, true, false, []⟩

/-- A concrete PRIVATE repository owned by the caller, used to instantiate
witnesses. -/
def samplePrivateRepo : RepoData :=
  ⟨"me", "https://e/me", "secret", "https://e/secret", "a private repo",
   [("Python", 900), ("YAML", 100)], false, 0, true, true, false, []⟩

theorem splitAtMarker_spec (pre rest : List String) (h : PROJECTS_HEADER ∉ pre) :
    splitAtMarker (pre ++ PROJECTS_HEADER :: rest) = some (pre, rest) := by
  induction pre with
  | nil => simp [splitAtMarker]
  | cons l ls ih =>
    simp only [List.mem_cons, not_or] at h
    have hl : ¬l = PROJECTS_HEADER := fun hh => h.1 hh.symm
    simp [splitAtMarker, hl, ih h.2]

theorem splitAtMarker_none (ls : List String) (h : PROJECTS_HEADER ∉ ls) :
    splitAtMarker ls = none := by
  induction ls with
  | nil => rfl
  | cons l rest ih =>
    simp only [List.mem_cons, not_or] at h
    have hl : ¬l = PROJECTS_HEADER := fun hh => h.1 hh.symm
    simp [splitAtMarker, hl, ih h.2]

theorem splitAtHeading_spec (mid : List String) (heading : String) (post : List String)
    (hmid : ∀ l ∈ mid, isHeadingLine l = false) (hh : isHeadingLine heading = true) :
    splitAtHeading (mid ++ heading :: post) = some (heading, post) := by
  induction mid with
  | nil => simp [splitAtHeading, hh]
  | cons l ls ih =>
    have h1 := hmid l (by simp)
    exact by simp [splitAtHeading, h1, ih (fun x hx => hmid x (by simp [hx]))]

theorem splitAtHeading_none (ls : List String) (h : ∀ l ∈ ls, isHeadingLine l = false) :
    splitAtHeading ls = none := by
  induction ls with
  | nil => rfl
  | cons l rest ih =>
    have h1 := h l (by simp)
    exact by simp [splitAtHeading, h1, ih (fun x hx => h x (by simp [hx]))]

theorem scanMarkerFuel_none :
    ∀ (fuel : Nat) (ls : List String), PROJECTS_HEADER ∉ ls → scanMarkerFuel fuel ls = none := by
  intro fuel
  induction fuel with
  | zero => intro ls _; rfl
  | succ n ih =>
    intro ls h
    match ls with
    | [] => simp [scanMarkerFuel, PROJECTS_HEADER, ih [] (by simp)]
    | l :: rest =>
      simp only [List.mem_cons, not_or] at h
      have hl : ¬l = PROJECTS_HEADER := fun hh => h.1 hh.symm
      simp [scanMarkerFuel, hl, ih rest h.2]

theorem scanHeadingFuel_none :
    ∀ (fuel : Nat) (ls : List String), (∀ l ∈ ls, isHeadingLine l = false) →
      scanHeadingFuel fuel ls = none := by
  intro fuel
  induction fuel with
  | zero => intro ls _; rfl
  | succ n ih =>
    intro ls h
    match ls with
    | [] =>
      have he : isHeadingLine "" = false := rfl
      simp [scanHeadingFuel, he, ih [] (by simp)]
    | l :: rest =>
      have h1 := h l (by simp)
      simp [scanHeadingFuel, h1, ih rest (fun x hx => h x (by simp [hx]))]

/-- C6 fails as stated: this document contains the marker line and a later
line beginning with `"## "`, yet the rewrite produces no output at all —
the first line is read into `head` before any comparison (line 201), so a
document whose only marker is its first line sends the marker scan past the
end of file, where it loops forever. -/
theorem C6_first_line_marker_cex :
    spliceDoc ["## Projects\n", "## End\n"] [] = none
    ∧ PROJECTS_HEADER ∈ ["## Projects\n", "## End\n"]
    ∧ isHeadingLine "## End\n" = true :=
  ⟨rfl, by decide, by decide⟩

/-- C6 amended: for every document whose FIRST line is not the marker,
decomposed as (first line, lines before the first marker, the marker, lines
without a heading, the first subsequent heading line, the rest), the rewrite
succeeds and preserves everything before the marker and everything from the
heading onward byte-for-byte — the heading line itself gets one newline
prepended (line 210), and only the section body in between is replaced by
the table. -/
theorem C6_splice_preserves (first heading : String) (pre mid post table : List String)
    (h1 : first ≠ PROJECTS_HEADER) (h2 : PROJECTS_HEADER ∉ pre)
    (h3 : ∀ l ∈ mid, isHeadingLine l = false) (h4 : isHeadingLine heading = true) :
    spliceDoc ((first :: pre) ++ PROJECTS_HEADER :: (mid ++ heading :: post)) table
      = some ((first :: pre) ++ table ++ ("\n" ++ heading) :: post) := by
  simp only [List.cons_append]
  simp [spliceDoc, splitAtMarker_spec pre _ h2, splitAtHeading_spec mid heading post h3 h4]

theorem C6_splice_preserves_witness :
    spliceDoc ["# Title\n", "## Projects\n", "old row\n", "## Next\n", "tail\n"] ["NEW\n"]
      = some (["# Title\n"] ++ ["NEW\n"] ++ ("\n" ++ "## Next\n") :: ["tail\n"]) :=
  C6_splice_preserves "# Title\n" "## Next\n" [] ["old row\n"] ["tail\n"] ["NEW\n"]
    (by decide) (by decide) (by decide) (by decide)

/-- C7 fails as stated: this document contains the marker line followed by
a later line beginning with `"## "`, yet the scan does not terminate — the
marker is the first line, which line 201 swallows unchecked, so the marker
scan reads past end of file forever (`none` encodes the unbounded scan). -/
theorem C7_first_line_marker_cex :
    spliceDoc ["## Projects\n", "body\n", "## Next\n"] ["X\n"] = none
    ∧ PROJECTS_HEADER ∈ ["## Projects\n", "body\n", "## Next\n"]
    ∧ isHeadingLine "## Next\n" = true :=
  ⟨rfl, by decide, by decide⟩

/-- C7 amended: the scan terminates (the splice yields an output) for every
document in which the marker occurs after the first line with a heading
line after it; when the marker never occurs after the first line, or no
heading follows the marker, the scan is unbounded: the splice yields no
output, and the fuel-indexed scans return nothing for EVERY step budget. -/
theorem C7_scan_termination :
    (∀ (first heading : String) (pre mid post table : List String),
      PROJECTS_HEADER ∉ pre → (∀ l ∈ mid, isHeadingLine l = false) →
      isHeadingLine heading = true →
      (spliceDoc ((first :: pre) ++ PROJECTS_HEADER :: (mid ++ heading :: post)) table).isSome
        = true)
    ∧ (∀ (first : String) (rest table : List String), PROJECTS_HEADER ∉ rest →
        spliceDoc (first :: rest) table = none
        ∧ ∀ (fuel : Nat), scanMarkerFuel fuel rest = none)
    ∧ (∀ (first : String) (pre mid table : List String), PROJECTS_HEADER ∉ pre →
        (∀ l ∈ mid, isHeadingLine l = false) →
        spliceDoc ((first :: pre) ++ PROJECTS_HEADER :: mid) table = none
        ∧ ∀ (fuel : Nat), scanHeadingFuel fuel mid = none) := by
  refine ⟨?_, ?_, ?_⟩
  · intro first heading pre mid post table hpre hmid hh
    simp only [List.cons_append]
    simp [spliceDoc, splitAtMarker_spec pre _ hpre, splitAtHeading_spec mid heading post hmid hh]
  · intro first rest table h
    exact ⟨by simp [spliceDoc, splitAtMarker_none rest h],
      fun fuel => scanMarkerFuel_none fuel rest h⟩
  · intro first pre mid table hpre hmid
    refine ⟨?_, fun fuel => scanHeadingFuel_none fuel mid hmid⟩
    simp only [List.cons_append]
    simp [spliceDoc, splitAtMarker_spec pre mid hpre, splitAtHeading_none mid hmid]

theorem C7_scan_termination_witness :
    (spliceDoc ["# T\n", "## Projects\n", "old\n", "## Other\n", "z\n"] ["N\n"]).isSome = true
    ∧ spliceDoc ["# T\n", "a\n", "b\n"] [] = none
    ∧ scanMarkerFuel 1000 ["a\n", "b\n"] = none
    ∧ spliceDoc ["# T\n", "## Projects\n", "x\n"] [] = none
    ∧ scanHeadingFuel 1000 ["x\n"] = none :=
  ⟨C7_scan_termination.1 "# T\n" "## Other\n" [] ["old\n"] ["z\n"] ["N\n"]
      (by decide) (by decide) (by decide),
   (C7_scan_termination.2.1 "# T\n" ["a\n", "b\n"] [] (by decide)).1,
   (C7_scan_termination.2.1 "# T\n" ["a\n", "b\n"] [] (by decide)).2 1000,
   (C7_scan_termination.2.2 "# T\n" [] ["x\n"] [] (by decide) (by decide)).1,
   (C7_scan_termination.2.2 "# T\n" [] ["x\n"] [] (by decide) (by decide)).2 1000⟩

/-- C3: for every repository record, the status is a pure function of the
archived flag, the updated-at timestamp and the current time, computed by
the three-way priority rule: archived forces Archive; otherwise an age of
more than 182 days forces Stale; otherwise the status is Current. -/
theorem C3_status_three_way (archived : Bool) (updated_at now : Int) :
    (repoStatus archived updated_at now = "Archive" ↔ archived = true)
    ∧ (repoStatus archived updated_at now = "Stale"
        ↔ (archived = false ∧ now - updated_at > six_months))
    ∧ (repoStatus archived updated_at now = "Current"
        ↔ (archived = false ∧ ¬(now - updated_at > six_months))) := by
  cases archived <;> by_cases h : now - updated_at > six_months <;>
    simp [repoStatus, h]

theorem C3_status_three_way_witness :
    repoStatus true 0 20000000 = "Archive"
    ∧ repoStatus false 0 20000000 = "Stale"
    ∧ repoStatus false 0 1000 = "Current" :=
  ⟨(C3_status_three_way true 0 20000000).1.mpr rfl,
   (C3_status_three_way false 0 20000000).2.1.mpr ⟨rfl, by decide⟩,
   (C3_status_three_way false 0 1000).2.2.mpr ⟨rfl, by decide⟩⟩

/-- C9: a root listing with exactly one entry yields a byte count of 0,
whatever the entry is — the `while len(contents) > 1` guard never examines
the final remaining entry of the worklist. -/
theorem C9_single_entry_zero (e : Entry) : count_jupyter_bytes [e] = 0 := by
  cases e <;> simp [count_jupyter_bytes, count_loop]

theorem C9_single_entry_zero_witness :
    count_jupyter_bytes [Entry.file "solo.ipynb" [⟨"code", ["print(1)"]⟩]] = 0 :=
  C9_single_entry_zero _

/-- C2: the code violates the claim.  A repository whose root listing holds
exactly one notebook file with one code cell of 37 UTF-8 bytes yields 0
from `count_jupyter_bytes`, while the sum the claim (and §4.5 of the spec)
describes over all notebook files of the tree is 37: the `> 1` loop guard
leaves the last worklist entry unexamined. -/
theorem C2_single_notebook_missed :
    count_jupyter_bytes
        [Entry.file "analysis.ipynb"
          [⟨"code", ["0123456789012345678901234567890123456"]⟩]] = 0
    ∧ count_jupyter_bytes_spec
        [Entry.file "analysis.ipynb"
          [⟨"code", ["0123456789012345678901234567890123456"]⟩]] = 37 := by
  constructor
  · simp [count_jupyter_bytes, count_loop]
  · simp [count_jupyter_bytes_spec, specListBytes, specEntryBytes, specNotebookBytes,
      notebookCellsFold, endsIpynb]
    decide

/-- C1: the code violates the claim.  For a repository with languages
mapping `[("Jupyter Notebook", 50)]` whose notebook code cells total 37
UTF-8 bytes (the tree holds the notebook plus a second entry, so the
traversal does reach it and `count_jupyter_bytes` returns 37), the
`all_bytes` counter still increases by the raw linguist count 50: line 72
binds the recomputed `bytes_count` but line 73 adds `linguist_bytes_count`. -/
theorem C1_raw_linguist_bytes_added :
    (processRepo false 0 initState
        ⟨"me", "https://e/me", "nb-repo", "https://e/nb", "notebooks",
         [("Jupyter Notebook", 50)], false, 0, false, true, false,
         [Entry.file "a.ipynb" [⟨"code", ["0123456789012345678901234567890123456"]⟩],
          Entry.file "README.md" []]⟩).all_bytes "Jupyter Notebook" = 50
    ∧ count_jupyter_bytes
        [Entry.file "a.ipynb" [⟨"code", ["0123456789012345678901234567890123456"]⟩],
         Entry.file "README.md" []] = 37 := by
  constructor
  · rfl
  · simp [count_jupyter_bytes, count_loop, notebookCellsFold, endsIpynb]
    decide

theorem pyMaxPair_cons (p q : String × Nat) (ps : List (String × Nat)) :
    pyMaxPair p (q :: ps) = pyMaxPair (if p.2 < q.2 then q else p) ps := rfl

theorem pyMaxPair_mem : ∀ (ps : List (String × Nat)) (p : String × Nat),
    pyMaxPair p ps ∈ p :: ps := by
  intro ps
  induction ps with
  | nil => intro p; simp [pyMaxPair]
  | cons q ps ih =>
    intro p
    rw [pyMaxPair_cons]
    by_cases hpq : p.2 < q.2
    · rw [if_pos hpq]
      have h := ih q
      simp only [List.mem_cons] at h ⊢
      tauto
    · rw [if_neg hpq]
      have h := ih p
      simp only [List.mem_cons] at h ⊢
      tauto

theorem pyMaxPair_le : ∀ (ps : List (String × Nat)) (p q : String × Nat),
    q ∈ p :: ps → q.2 ≤ (pyMaxPair p ps).2 := by
  intro ps
  induction ps with
  | nil =>
    intro p q hq
    simp only [List.mem_singleton] at hq
    simp [pyMaxPair, hq]
  | cons x ps ih =>
    intro p q hq
    rw [pyMaxPair_cons]
    have hpb : p.2 ≤ (if p.2 < x.2 then x else p).2 := by split <;> omega
    have hxb : x.2 ≤ (if p.2 < x.2 then x else p).2 := by split <;> omega
    have hbase : ((if p.2 < x.2 then x else p)).2
        ≤ (pyMaxPair (if p.2 < x.2 then x else p) ps).2 :=
      ih (if p.2 < x.2 then x else p) (if p.2 < x.2 then x else p) (by simp)
    simp only [List.mem_cons] at hq
    rcases hq with rfl | rfl | hq
    · exact le_trans hpb hbase
    · exact le_trans hxb hbase
    · exact ih (if p.2 < x.2 then x else p) q (by simp [hq])

theorem pyMaxPair_first : ∀ (ps : List (String × Nat)) (p : String × Nat),
    ∃ l1 l2, p :: ps = l1 ++ pyMaxPair p ps :: l2
      ∧ ∀ q ∈ l1, q.2 < (pyMaxPair p ps).2 := by
  intro ps
  induction ps with
  | nil => intro p; exact ⟨[], [], by simp [pyMaxPair], by simp⟩
  | cons x ps ih =>
    intro p
    rw [pyMaxPair_cons]
    by_cases hpx : p.2 < x.2
    · rw [if_pos hpx]
      obtain ⟨l1, l2, hdec, hlt⟩ := ih x
      refine ⟨p :: l1, l2, by rw [List.cons_append, ← hdec], ?_⟩
      intro q hq
      rcases List.mem_cons.mp hq with rfl | hq
      · have hx : x.2 ≤ (pyMaxPair x ps).2 := pyMaxPair_le ps x x (by simp)
        omega
      · exact hlt q hq
    · rw [if_neg hpx]
      obtain ⟨l1, l2, hdec, hlt⟩ := ih p
      rcases l1 with _ | ⟨r, l1'⟩
      · simp only [List.nil_append] at hdec
        injection hdec with h1 h2
        refine ⟨[], x :: ps, ?_, by simp⟩
        simp only [List.nil_append]
        rw [← h1]
      · simp only [List.cons_append] at hdec
        injection hdec with h1 h2
        subst h1
        have hple : p.2 < (pyMaxPair p ps).2 := hlt p (by simp)
        refine ⟨p :: x :: l1', l2, ?_, ?_⟩
        · simp only [List.cons_append]
          rw [← h2]
        · intro q hq
          rcases List.mem_cons.mp hq with rfl | hq'
          · exact hple
          · rcases List.mem_cons.mp hq' with rfl | hq''
            · omega
            · exact hlt q (by simp [hq''])

theorem find?_first {α : Type} (P : α → Bool) :
    ∀ (l1 : List α) (r : α) (l2 : List α),
      (∀ q ∈ l1, P q = false) → P r = true →
      (l1 ++ r :: l2).find? P = some r := by
  intro l1
  induction l1 with
  | nil => intro r l2 _ hr; simp [List.find?, hr]
  | cons q l1 ih =>
    intro r l2 hq hr
    have h1 := hq q (by simp)
    simp [List.find?, h1, ih r l2 (fun x hx => hq x (by simp [hx])) hr]

/-- C4: for every non-empty language mapping, the dominant language
`max(languages, key=lambda k: languages[k])` is the FIRST entry whose byte
value is greatest (a key of maximum value, ties broken by first-seen order
— which is precisely what `List.find?` with the "at least every value"
test returns); and a single-entry mapping always yields that entry. -/
theorem C4_dominant_language (langs : List (String × Nat)) (h : langs ≠ []) :
    pyMax langs = langs.find? (fun q => langs.all (fun x => x.2 ≤ q.2))
    ∧ ∀ (k : String) (v : Nat), langs = [(k, v)] → pyMax langs = some (k, v) := by
  constructor
  · match langs, h with
    | p :: ps, _ =>
      obtain ⟨l1, l2, hdec, hlt⟩ := pyMaxPair_first ps p
      have hub : ∀ q ∈ p :: ps, q.2 ≤ (pyMaxPair p ps).2 := pyMaxPair_le ps p
      have hrmem : pyMaxPair p ps ∈ p :: ps := pyMaxPair_mem ps p
      have hPr : ((p :: ps).all (fun x => x.2 ≤ (pyMaxPair p ps).2)) = true := by
        simp only [List.all_eq_true, decide_eq_true_eq]
        exact fun x hx => hub x hx
      have hPfalse : ∀ q ∈ l1, ((p :: ps).all (fun x => x.2 ≤ q.2)) = false := by
        intro q hq
        have hlt' := hlt q hq
        rw [Bool.eq_false_iff]
        intro hall
        rw [List.all_eq_true] at hall
        have hcontra := hall (pyMaxPair p ps) hrmem
        rw [decide_eq_true_eq] at hcontra
        omega
      rw [show pyMax (p :: ps) = some (pyMaxPair p ps) from rfl]
      rw [hdec] at hPr hPfalse ⊢
      exact (find?_first _ l1 (pyMaxPair p ps) l2 hPfalse hPr).symm
  · intro k v heq
    subst heq
    rfl

theorem C4_dominant_language_witness :
    pyMax [("Python", 900), ("YAML", 100)]
      = [("Python", 900), ("YAML", 100)].find?
          (fun q => [("Python", 900), ("YAML", 100)].all (fun x => x.2 ≤ q.2))
    ∧ ∀ (k : String) (v : Nat), [("Python", 900), ("YAML", 100)] = [(k, v)]
        → pyMax [("Python", 900), ("YAML", 100)] = some (k, v) :=
  C4_dominant_language [("Python", 900), ("YAML", 100)] (by simp)

theorem addCount_le (c : String → Nat) (key : String) (v : Nat) (x : String) :
    c x ≤ addCount c key v x := by
  unfold addCount
  split <;> omega

theorem foldl_stats_le (f : (String → Nat) → String × Nat → String → Nat)
    (hf : ∀ c q x, c x ≤ f c q x) :
    ∀ (l : List (String × Nat)) (c : String → Nat) (x : String), c x ≤ (l.foldl f c) x := by
  intro l
  induction l with
  | nil => intro c x; simp
  | cons q l ih => intro c x; exact le_trans (hf c q x) (ih (f c q) x)

theorem foldl_addRepos_apply :
    ∀ (l : List (String × Nat)) (c : String → Nat) (x : String),
      (l.foldl (fun c q => addCount c q.1 1) c) x
        = c x + l.countP (fun q => q.1 = x) := by
  intro l
  induction l with
  | nil => intro c x; simp
  | cons q l ih =>
    intro c x
    rw [List.foldl_cons, ih, List.countP_cons]
    by_cases h : x = q.1
    · subst h
      simp [addCount]
      omega
    · have h2 : ¬(q.1 = x) := fun hh => h hh.symm
      simp [addCount, h, h2]

theorem countP_fst_nodup (l : List (String × Nat)) (hnd : (l.map Prod.fst).Nodup) (x : String) :
    l.countP (fun q => q.1 = x) = if x ∈ l.map Prod.fst then 1 else 0 := by
  induction l with
  | nil => simp
  | cons q l ih =>
    simp only [List.map_cons, List.nodup_cons] at hnd
    simp only [List.map_cons]
    rw [List.countP_cons, ih hnd.2]
    by_cases h : x = q.1
    · subst h
      simp [hnd.1]
    · have h2 : ¬(q.1 = x) := fun hh => h hh.symm
      simp only [h2, decide_eq_true_eq, if_neg, ite_false, Nat.add_zero]
      by_cases hm : x ∈ List.map Prod.fst l
      · rw [if_pos hm, if_pos (List.mem_cons_of_mem _ hm)]
      · rw [if_neg hm, if_neg (by simp [List.mem_cons, h, hm])]

theorem addRecord_counters (ip : Bool) (now : Int) (st : AggState) (r : RepoData) :
    (addRecord ip now st r).all_bytes = st.all_bytes
    ∧ (addRecord ip now st r).all_repos = st.all_repos
    ∧ (addRecord ip now st r).top_bytes = st.top_bytes
    ∧ (addRecord ip now st r).top_repos = st.top_repos := by
  simp only [addRecord]
  split
  · split
    · exact ⟨rfl, rfl, rfl, rfl⟩
    · split
      · exact ⟨rfl, rfl, rfl, rfl⟩
      · exact ⟨rfl, rfl, rfl, rfl⟩
  · exact ⟨rfl, rfl, rfl, rfl⟩

theorem addRecord_skip (now : Int) (st : AggState) (r : RepoData) (h : r.is_private = true) :
    addRecord false now st r = st := by
  unfold addRecord
  rw [h]
  simp

theorem updateStats_records (st : AggState) (r : RepoData) :
    (updateStats st r).current = st.current
    ∧ (updateStats st r).stale = st.stale
    ∧ (updateStats st r).archive = st.archive := by
  rcases hl : r.languages with _ | ⟨p, ps⟩ <;>
    simp [updateStats, hl]

theorem updateStats_all_repos (st : AggState) (r : RepoData) (x : String) :
    (updateStats st r).all_repos x
      = st.all_repos x + r.languages.countP (fun q => q.1 = x) := by
  rcases hl : r.languages with _ | ⟨p, ps⟩
  · simp [updateStats, hl]
  · simp only [updateStats, hl]
    rw [foldl_addRepos_apply]

theorem updateStats_le (st : AggState) (r : RepoData) (x : String) :
    st.all_bytes x ≤ (updateStats st r).all_bytes x
    ∧ st.all_repos x ≤ (updateStats st r).all_repos x
    ∧ st.top_bytes x ≤ (updateStats st r).top_bytes x
    ∧ st.top_repos x ≤ (updateStats st r).top_repos x := by
  rcases hl : r.languages with _ | ⟨p, ps⟩
  · simp [updateStats, hl]
  · simp only [updateStats, hl]
    refine ⟨?_, ?_, ?_, ?_⟩
    · exact foldl_stats_le _ (fun c q x => addCount_le c q.1 q.2 x) (p :: ps) st.all_bytes x
    · exact foldl_stats_le _ (fun c q x => addCount_le c q.1 1 x) (p :: ps) st.all_repos x
    · exact addCount_le st.top_bytes _ _ x
    · exact addCount_le st.top_repos _ _ x

theorem processRepo_all_repos (ip : Bool) (now : Int) (st : AggState) (r : RepoData) (x : String)
    (hnd : (r.languages.map Prod.fst).Nodup) :
    (processRepo ip now st r).all_repos x
      = st.all_repos x
        + (if includedInStats r && decide (x ∈ r.languages.map Prod.fst) then 1 else 0) := by
  unfold processRepo
  by_cases hio : (r.is_owner || r.is_contributor) = true
  case neg =>
    rw [if_neg hio]
    have hio' : (r.is_owner || r.is_contributor) = false := by
      cases hb : (r.is_owner || r.is_contributor)
      · rfl
      · exact absurd hb hio
    simp [includedInStats, hio']
  case pos =>
    rw [if_pos hio]
    rw [congrFun (addRecord_counters ip now (updateStats st r) r).2.1 x]
    rw [updateStats_all_repos, countP_fst_nodup r.languages hnd x]
    congr 1
    by_cases hx : x ∈ r.languages.map Prod.fst
    · have hne : r.languages.isEmpty = false := by
        rcases hl : r.languages with _ | ⟨p, ps⟩
        · rw [hl] at hx; simp at hx
        · simp
      simp [includedInStats, hio, hne, hx]
    · simp [hx]

theorem processAll_all_repos (ip : Bool) (now : Int) :
    ∀ (repos : List RepoData) (st : AggState) (x : String),
      (∀ r ∈ repos, (r.languages.map Prod.fst).Nodup) →
      (processAll ip now st repos).all_repos x
        = st.all_repos x
          + repos.countP (fun r => includedInStats r && decide (x ∈ r.languages.map Prod.fst)) := by
  intro repos
  induction repos with
  | nil => intro st x _; simp [processAll]
  | cons r rs ih =>
    intro st x hnd
    have h1 := hnd r (by simp)
    rw [show processAll ip now st (r :: rs) = processAll ip now (processRepo ip now st r) rs
      from rfl]
    rw [ih (processRepo ip now st r) x (fun r' hr' => hnd r' (by simp [hr']))]
    rw [processRepo_all_repos ip now st r x h1, List.countP_cons]
    omega

/-- C5: every per-language value of each of the four counters is
non-decreasing under processing one more repository; and from fresh state,
the final `all_repos` value of a language equals the number of processed
repositories that pass the ownership filter, have a non-empty language
mapping, and whose mapping contains that language. -/
theorem C5_counters_monotone_and_presence :
    (∀ (ip : Bool) (now : Int) (st : AggState) (r : RepoData) (x : String),
      st.all_bytes x ≤ (processRepo ip now st r).all_bytes x
      ∧ st.all_repos x ≤ (processRepo ip now st r).all_repos x
      ∧ st.top_bytes x ≤ (processRepo ip now st r).top_bytes x
      ∧ st.top_repos x ≤ (processRepo ip now st r).top_repos x)
    ∧ (∀ (ip : Bool) (now : Int) (repos : List RepoData) (x : String),
        (∀ r ∈ repos, (r.languages.map Prod.fst).Nodup) →
        (processAll ip now initState repos).all_repos x
          = repos.countP
              (fun r => includedInStats r && decide (x ∈ r.languages.map Prod.fst))) := by
  constructor
  · intro ip now st r x
    unfold processRepo
    split
    · have hcnt := addRecord_counters ip now (updateStats st r) r
      have hle := updateStats_le st r x
      exact ⟨by rw [congrFun hcnt.1 x]; exact hle.1,
        by rw [congrFun hcnt.2.1 x]; exact hle.2.1,
        by rw [congrFun hcnt.2.2.1 x]; exact hle.2.2.1,
        by rw [congrFun hcnt.2.2.2 x]; exact hle.2.2.2⟩
    · exact ⟨le_refl _, le_refl _, le_refl _, le_refl _⟩
  · intro ip now repos x hnd
    rw [processAll_all_repos ip now repos initState x hnd]
    simp [initState]

theorem C5_counters_witness :
    initState.all_repos "Python"
        ≤ (processRepo true 0 initState sampleRepoData).all_repos "Python"
    ∧ (processAll true 0 initState [sampleRepoData]).all_repos "Python" = 1 :=
  ⟨(C5_counters_monotone_and_presence.1 true 0 initState sampleRepoData "Python").2.1,
   (C5_counters_monotone_and_presence.2 true 0 [sampleRepoData] "Python"
      (by decide)).trans (by decide)⟩

/-- C8: with `include_private = false`, a private repository owned by the
caller with a non-empty language mapping still feeds the statistics (its
`all_repos` count for each of its languages goes up by one) while NO record
is appended to any of the three status lists, so the statistics and the
displayed records cover different repository sets. -/
theorem C8_private_in_stats_not_table (now : Int) (st : AggState) (r : RepoData)
    (howner : r.is_owner = true) (hpriv : r.is_private = true)
    (hnd : (r.languages.map Prod.fst).Nodup) (x : String)
    (hmem : x ∈ r.languages.map Prod.fst) :
    (processRepo false now st r).all_repos x = st.all_repos x + 1
    ∧ (processRepo false now st r).current = st.current
    ∧ (processRepo false now st r).stale = st.stale
    ∧ (processRepo false now st r).archive = st.archive := by
  have hio : (r.is_owner || r.is_contributor) = true := by rw [howner]; simp
  have hne : r.languages.isEmpty = false := by
    rcases hl : r.languages with _ | ⟨p, ps⟩
    · rw [hl] at hmem; simp at hmem
    · simp
  constructor
  · rw [processRepo_all_repos false now st r x hnd]
    simp [includedInStats, hio, hne, hmem]
  · have hrec : processRepo false now st r = updateStats st r := by
      unfold processRepo
      rw [if_pos hio, addRecord_skip now (updateStats st r) r hpriv]
    rw [hrec]
    exact updateStats_records st r

theorem C8_private_in_stats_not_table_witness :
    (processRepo false 0 initState samplePrivateRepo).all_repos "Python"
        = initState.all_repos "Python" + 1
    ∧ (processRepo false 0 initState samplePrivateRepo).current = initState.current
    ∧ (processRepo false 0 initState samplePrivateRepo).stale = initState.stale
    ∧ (processRepo false 0 initState samplePrivateRepo).archive = initState.archive :=
  C8_private_in_stats_not_table 0 initState samplePrivateRepo rfl rfl
    (by decide) "Python" (by decide)

theorem startsWithNewline_statusHeader (s : String) :
    startsWithNewline (statusHeader s) = true := by
  simp [startsWithNewline, statusHeader, String.data_append,
    show "\n### ".data = ['\n', '#', '#', '#', ' '] from rfl]

theorem startsWithNewline_row (r : Repo) : startsWithNewline (Repo.markdown r) = false := by
  simp [startsWithNewline, Repo.markdown, String.data_append,
    show "| ".data = ['|', ' '] from rfl]

theorem startsWithNewline_gistRow (g : Gist) :
    startsWithNewline (Gist.markdown g) = false := by
  simp [startsWithNewline, Gist.markdown, String.data_append,
    show "| ".data = ['|', ' '] from rfl]

theorem filter_rows_nil (l : List Repo) :
    (l.map Repo.markdown).filter startsWithNewline = [] := by
  induction l with
  | nil => rfl
  | cons a t ih => simp [List.filter_cons, startsWithNewline_row, ih]

theorem filter_gistRows_nil (l : List Gist) :
    (l.map Gist.markdown).filter startsWithNewline = [] := by
  induction l with
  | nil => rfl
  | cons a t ih => simp [List.filter_cons, startsWithNewline_gistRow, ih]

/-- C10: for every aggregation result, the rendered table begins with the
line `"## Projects\n"`, and its subsection header lines are EXACTLY the
three status headers in the fixed order Current, Stale, Archive followed by
the Gists header — each emitted even when the corresponding group is empty
(the state and the gist list are universally quantified, so in particular
for all-empty groups). -/
theorem C10_table_structure (st : AggState) (gists : List Gist) :
    (markdown_table st gists).head? = some PROJECTS_HEADER
    ∧ (markdown_table st gists).filter startsWithNewline
        = [statusHeader "Current", statusHeader "Stale", statusHeader "Archive", gistsHeader] := by
  constructor
  · simp [markdown_table]
  · have hph : startsWithNewline PROJECTS_HEADER = false := rfl
    have hgh : startsWithNewline gistsHeader = true := rfl
    simp [markdown_table, List.filter_append, List.filter_cons, hph, hgh,
      startsWithNewline_statusHeader, filter_rows_nil, filter_gistRows_nil]

theorem C10_table_structure_witness :
    (markdown_table initState []).head? = some PROJECTS_HEADER
    ∧ (markdown_table initState []).filter startsWithNewline
        = [statusHeader "Current", statusHeader "Stale", statusHeader "Archive", gistsHeader] :=
  C10_table_structure initState []

end GitRepos
